import Mathlib

/-!
# Verification of the Pulumi template-source core

Shallow embedding of the Git URL / template-source resolution core of the
repository (`pkg/util/gitutil/git.go`, `pkg/backend/filestate/stack.go`),
together with theorems settling the frozen claims about it.

Conventions of the embedding:
* Go strings are Lean `String`s; the byte length of the (ASCII-checked or
  arbitrary) Go string is modelled by `String.utf8ByteSize`.
* Go standard-library string helpers (`strings.Split`, `strings.HasPrefix`,
  `strings.TrimPrefix`, `strings.TrimSuffix`, `strings.Join`) are modelled by
  the `go…` functions below, defined structurally on the character data so that
  they compute inside the kernel.
* `url.Parse` (Go standard library, external to this repository) is modelled by
  handing the functions the parsed components (scheme, host, path) directly.
* A `git.Repository` is modelled by the state the functions under verification
  consult: the list of short names of its references (what
  `repo.References()` enumerates, viewed through `plumbing.ReferenceName.Short()`
  of the external go-git library), plus further repository state that the
  resolver never inspects.  Storage-level enumeration errors are external I/O
  failures and are modelled as absent (the enumeration is total).
* `plumbing.Hash` (a 20-byte array obtained by hex-decoding) is modelled by the
  lowercase 40-hex-character string it prints as; the zero hash is the string
  of forty `0` characters.  On strings accepted by `gitSHARegex`, hex-decoding
  followed by re-encoding is exactly lowercasing, so this is a bijective view.
* Errors are `Except String` with the error strings of the source.
-/

/-! ## Models of the Go standard-library string helpers -/

/-- Split a character list at every occurrence of the character `c`.
Models the core loop of Go `strings.Split` for a one-character separator. -/
def splitOnCharData (c : Char) : List Char → List (List Char)
  | [] => [[]]
  | x :: xs =>
    if x = c then [] :: splitOnCharData c xs
    else
      match splitOnCharData c xs with
      | h :: t => (x :: h) :: t
      | [] => [[x]]

/-- Models Go `strings.Split(s, sep)` for the one-character separators used in
the source (`"/"`). -/
def goSplit (s : String) (sep : Char) : List String :=
  (splitOnCharData sep s.data).map String.mk

/-- Models Go `strings.HasPrefix(s, pre)`. -/
def goStartsWith (s pre : String) : Bool :=
  pre.data.isPrefixOf s.data

/-- Models Go `strings.HasSuffix(s, suf)`. -/
def goEndsWith (s suf : String) : Bool :=
  suf.data.isSuffixOf s.data

/-- Models Go `strings.TrimPrefix(s, pre)`. -/
def goTrimPre (s pre : String) : String :=
  if goStartsWith s pre then String.mk (s.data.drop pre.data.length) else s

/-- Models Go `strings.TrimSuffix(s, suf)`. -/
def goTrimSuf (s suf : String) : String :=
  if goEndsWith s suf then String.mk (s.data.take (s.data.length - suf.data.length)) else s

/-- Models Go `strings.Join(elems, sep)`. -/
def goJoin (sep : String) : List String → String
  | [] => ""
  | [x] => x
  | x :: xs => x ++ sep ++ goJoin sep xs

/-! ## The gitutil data model (`pkg/util/gitutil/git.go`) -/

/-- A hexadecimal digit, as matched by the character class of `gitSHARegex`. -/
def isHexChar (c : Char) : Bool :=
  c.isDigit || ('a' ≤ c && c ≤ 'f') || ('A' ≤ c && c ≤ 'F')

/-- Models `gitSHARegex.MatchString`, the regular expression
`^[0-9a-fA-F]{40}$` of the source. -/
def gitSHAMatch (s : String) : Bool :=
  s.data.length == 40 && s.data.all isHexChar

/-- The body of the loop `if path == "." || path == ".."` of
`ParseGitCheckoutOptionsSubDirectory`. -/
def isDotSeg (s : String) : Bool :=
  s == "." || s == ".."

/-- `plumbing.ZeroHash` under the hex-string view of hashes. -/
def zeroHash : String :=
  "0000000000000000000000000000000000000000"

/-- Models `plumbing.NewHash` on inputs accepted by `gitSHARegex`:
hex-decoding into a 20-byte array, viewed back as canonical lowercase hex. -/
def newHash (s : String) : String :=
  String.mk (s.data.map Char.toLower)

/-- Models `git.CheckoutOptions` restricted to the two fields the source sets.
The Go zero values are `Branch = ""` and `Hash = plumbing.ZeroHash`. -/
structure CheckoutOptions where
  branch : String
  hash : String
deriving DecidableEq, Repr

/-- `&git.CheckoutOptions{Branch: r}`: the hash field keeps its zero value. -/
def branchOpts (r : String) : CheckoutOptions :=
  ⟨r, zeroHash⟩

/-- `&git.CheckoutOptions{Hash: h}`: the branch field keeps its zero value. -/
def hashOpts (h : String) : CheckoutOptions :=
  ⟨"", h⟩

/-- `plumbing.Master`, the default branch reference name of go-git. -/
def masterRef : String :=
  "refs/heads/master"

/-- The branch-or-tag name of a checkout target is set when the field differs
from its Go zero value (`opt.Branch != ""`, as in the repository's own test). -/
def branchIsSet (c : CheckoutOptions) : Bool :=
  c.branch != ""

/-- The content hash of a checkout target is set when it is not the zero hash
(`!opt.Hash.IsZero()`, as in the repository's own test). -/
def hashIsSet (c : CheckoutOptions) : Bool :=
  c.hash != zeroHash

/-- Abstract model of a `git.Repository`: the short names of all of its
references (what `listGitReferencesByShortNameLength` enumerates before
sorting), plus further repository state that the URL resolver never reads. -/
structure Repository where
  refs : List String
  headRef : String
  worktreePath : String

/-- The sort key of `byShortNameLengthDesc`: descending short-name byte
length (`len(r[j].Short()) < len(r[i].Short())` in the source). -/
def refLenGE (a b : String) : Prop :=
  b.utf8ByteSize ≤ a.utf8ByteSize

instance : DecidableRel refLenGE := fun a b => Nat.decLe b.utf8ByteSize a.utf8ByteSize

instance : IsTotal String refLenGE :=
  ⟨fun a b => by unfold refLenGE; omega⟩

instance : IsTrans String refLenGE :=
  ⟨fun x y z hxy hyz => by unfold refLenGE at *; omega⟩

deriving instance DecidableEq for Except

/-- Models `sort.Sort(byShortNameLengthDesc(results))`: sort the reference
short names by descending length.  (Go's `sort.Sort` leaves the order of
equal-length names unspecified; the model fixes the stable order.) -/
def byShortNameLengthDesc (refs : List String) : List String :=
  List.insertionSort refLenGE refs

/-- Models `listGitReferencesByShortNameLength`: enumerate the repository's
references and sort them by descending short-name length. -/
def listGitReferencesByShortNameLength (repo : Repository) : List String :=
  byShortNameLengthDesc repo.refs

/-- The matching predicate of the resolution loop: the reference's short name,
with a leading `"origin/"` stripped, followed by `"/"`, is a prefix of the
ref-path followed by `"/"`. -/
def matchesRef (path r : String) : Bool :=
  goStartsWith path (goTrimPre r "origin/" ++ "/")

/-- The `for _, ref := range refs` loop of
`ParseGitCheckoutOptionsSubDirectory`: return the first reference whose
origin-stripped short name matches, together with the computed sub directory. -/
def findRefMatch (path : String) : List String → Option (String × String)
  | [] => none
  | ref :: rest =>
    if goStartsWith path (goTrimPre ref "origin/" ++ "/") then
      some (ref, goTrimSuf (goTrimPre path (goTrimPre ref "origin/" ++ "/")) "/")
    else
      findRefMatch path rest

/-- Models `ParseGitCheckoutOptionsSubDirectory(rawurl, repo)`.
`uPath` is the path component of the parsed raw URL (`u.Path` in the source;
`url.Parse` itself is Go standard library).  Returns the checkout options and
the sub directory path, or the error of the source. -/
def ParseGitCheckoutOptionsSubDirectory (uPath : String) (repo : Repository) :
    Except String (CheckoutOptions × String) :=
  let paths0 := goSplit (goTrimSuf uPath "/") '/'
  if paths0.length < 3 then .error "invalid Git URL"
  else if paths0.length = 3 then .ok (branchOpts masterRef, "")
  else
    match paths0.drop 3 with
    | [] => .error "invalid Git URL" -- unreachable: paths0 has at least 4 elements here
    | p0 :: prest =>
      if (p0 :: prest).any isDotSeg then .error "invalid Git URL"
      else if p0 = "tree" then
        match prest with
        | [] => .error "invalid Git URL"
        | refSeg :: subSegs =>
          if gitSHAMatch refSeg then
            .ok (hashOpts (newHash refSeg), goJoin "/" subSegs)
          else
            let sorted := listGitReferencesByShortNameLength repo
            let path := goJoin "/" (refSeg :: subSegs) ++ "/"
            match findRefMatch path sorted with
            | some (ref, subDir) => .ok (branchOpts ref, subDir)
            | none => .error "invalid Git URL"
      else .ok (branchOpts masterRef, goJoin "/" (p0 :: prest))

/-- Models `ParseGitRepoURL(rawurl)`.  `scheme`, `host` and `uPath` are the
components of the parsed raw URL (`u.Scheme`, `u.Host`, `u.Path`). -/
def ParseGitRepoURL (scheme host uPath : String) : Except String String :=
  if scheme ≠ "https" then .error "invalid URL scheme"
  else
    match goSplit uPath '/' with
    | _ :: owner :: repoSeg :: _ =>
      if owner = "" then .error "invalid Git URL; no owner"
      else if repoSeg = "" then .error "invalid Git URL; no repository"
      else
        let repoFull := if goEndsWith repoSeg ".git" then repoSeg else repoSeg ++ ".git"
        .ok (scheme ++ "://" ++ host ++ "/" ++ owner ++ "/" ++ repoFull)
    | _ => .error "invalid Git URL"

/-! ## `GitCloneOrPull` (`pkg/util/gitutil/git.go`) -/

/-- The go-git error values distinguished by `GitCloneOrPull`. -/
inductive GitError where
  | errRepositoryAlreadyExists
  | noErrAlreadyUpToDate
  | other (msg : String)
deriving DecidableEq, Repr

/-- The fields of `git.CloneOptions` that `GitCloneOrPull` sets. -/
structure CloneOptions where
  url : String
  depth : Nat
deriving DecidableEq, Repr

/-- The fields of `git.PullOptions` that `GitCloneOrPull` sets. -/
structure PullOptions where
  depth : Nat
  force : Bool
deriving DecidableEq, Repr

/-- Models `GitCloneOrPull(url, path)`.  The external go-git operations
(`git.PlainClone`, `git.PlainOpen`, `repo.Worktree`, `w.Pull`) are supplied as
oracles; `pull` returns `none` on success. -/
def GitCloneOrPull {Repo Worktree : Type}
    (url clonePath : String)
    (plainClone : String → CloneOptions → Except GitError Repo)
    (plainOpen : String → Except GitError Repo)
    (worktree : Repo → Except GitError Worktree)
    (pull : Worktree → PullOptions → Option GitError) :
    Except GitError Repo :=
  match plainClone clonePath { url := url, depth := 1 } with
  | .ok repo => .ok repo
  | .error e =>
    if e = .errRepositoryAlreadyExists then
      match plainOpen clonePath with
      | .error e2 => .error e2
      | .ok repo =>
        match worktree repo with
        | .error e3 => .error e3
        | .ok w =>
          match pull w { depth := 1, force := true } with
          | none => .ok repo
          | some pe =>
            if pe = .noErrAlreadyUpToDate then .ok repo else .error pe
    else .error e

/-! ## `MergeTags` (`pkg/backend/filestate/stack.go`) -/

/-- Models `localStack.MergeTags`: tag maps are modelled extensionally as
`String → Option String` (a `nil` Go map is `fun _ => none`); the incoming map
is given by its entry list (a Go map, so its keys are pairwise distinct, and
its iteration order does not affect the result).  Each incoming entry is
written into the stack's tags, overwriting the value stored at its key. -/
def MergeTags (old : String → Option String) (incoming : List (String × String)) :
    String → Option String :=
  incoming.foldl (fun m kv k => if k = kv.1 then some kv.2 else m k) old

/-! ## Lemmas about the string-helper models -/

theorem goStartsWith_iff {s pre : String} : goStartsWith s pre = true ↔ pre.data <+: s.data := by
  unfold goStartsWith
  exact List.isPrefixOf_iff_prefix

theorem goEndsWith_iff {s suf : String} : goEndsWith s suf = true ↔ suf.data <:+ s.data := by
  unfold goEndsWith
  exact List.isSuffixOf_iff_suffix

theorem goStartsWith_append (p s : String) : goStartsWith (p ++ s) p = true := by
  rw [goStartsWith_iff, String.data_append]
  exact List.prefix_append p.data s.data

theorem goTrimPre_append (p s : String) : goTrimPre (p ++ s) p = s := by
  unfold goTrimPre
  rw [if_pos (goStartsWith_append p s), String.data_append, List.drop_left]

theorem goTrimSuf_append (q t : String) : goTrimSuf (q ++ t) t = q := by
  unfold goTrimSuf
  rw [if_pos (goEndsWith_iff.mpr (by rw [String.data_append]; exact List.suffix_append q.data t.data))]
  rw [String.data_append, List.length_append, Nat.add_sub_cancel, List.take_left]

theorem goTrimPre_self (s : String) : goTrimPre s s = "" := by
  unfold goTrimPre goStartsWith
  rw [if_pos (List.isPrefixOf_iff_prefix.mpr (List.prefix_refl s.data)), List.drop_length]

theorem goJoin_cons_cons (x z : String) (l : List String) :
    goJoin "/" (x :: z :: l) = x ++ "/" ++ goJoin "/" (z :: l) := rfl

theorem goJoin_append : ∀ (a b : List String), a ≠ [] → b ≠ [] →
    goJoin "/" (a ++ b) = goJoin "/" a ++ "/" ++ goJoin "/" b
  | [], _, ha, _ => absurd rfl ha
  | _ :: _, [], _, hb => absurd rfl hb
  | [x], y :: ys, _, _ => by
    rw [List.singleton_append, goJoin_cons_cons]
    rfl
  | x :: z :: zs, y :: ys, _, _ => by
    have ih := goJoin_append (z :: zs) (y :: ys) (by simp) (by simp)
    simp only [List.cons_append] at ih ⊢
    rw [goJoin_cons_cons, ih, goJoin_cons_cons]
    simp [String.append_assoc]

/-! ## Lemmas about the reference-resolution loop -/

theorem findRefMatch_some {path : String} : ∀ {l : List String} {w sub : String},
    findRefMatch path l = some (w, sub) →
    w ∈ l ∧ matchesRef path w = true ∧
      sub = goTrimSuf (goTrimPre path (goTrimPre w "origin/" ++ "/")) "/"
  | [], _, _, h => by simp [findRefMatch] at h
  | ref :: rest, w, sub, h => by
    unfold findRefMatch at h
    by_cases hm : goStartsWith path (goTrimPre ref "origin/" ++ "/") = true
    · rw [if_pos hm] at h
      obtain ⟨rfl, rfl⟩ : ref = w ∧ goTrimSuf (goTrimPre path (goTrimPre ref "origin/" ++ "/")) "/" = sub := by
        simpa using h
      exact ⟨List.mem_cons_self _ _, hm, rfl⟩
    · rw [if_neg hm] at h
      obtain ⟨h1, h2, h3⟩ := findRefMatch_some h
      exact ⟨List.mem_cons_of_mem _ h1, h2, h3⟩

theorem findRefMatch_exists {path : String} : ∀ {l : List String},
    (∃ r ∈ l, matchesRef path r = true) → ∃ pr, findRefMatch path l = some pr
  | [], h => by simp at h
  | ref :: rest, h => by
    unfold findRefMatch
    by_cases hm : goStartsWith path (goTrimPre ref "origin/" ++ "/") = true
    · exact ⟨_, by rw [if_pos hm]⟩
    · rw [if_neg hm]
      obtain ⟨r, hr, hmr⟩ := h
      rcases List.mem_cons.mp hr with rfl | hr
      · exact absurd hmr (by simpa [matchesRef] using hm)
      · exact findRefMatch_exists ⟨r, hr, hmr⟩

theorem findRefMatch_max {path : String} : ∀ {l : List String} {w sub : String},
    l.Pairwise refLenGE → findRefMatch path l = some (w, sub) →
    ∀ r ∈ l, matchesRef path r = true → r.utf8ByteSize ≤ w.utf8ByteSize
  | [], _, _, _, h => by simp [findRefMatch] at h
  | ref :: rest, w, sub, hp, h => by
    unfold findRefMatch at h
    obtain ⟨hhead, htail⟩ := List.pairwise_cons.mp hp
    by_cases hm : goStartsWith path (goTrimPre ref "origin/" ++ "/") = true
    · rw [if_pos hm] at h
      obtain ⟨rfl, -⟩ : ref = w ∧ goTrimSuf (goTrimPre path (goTrimPre ref "origin/" ++ "/")) "/" = sub := by
        simpa using h
      intro r hr _
      rcases List.mem_cons.mp hr with rfl | hr
      · exact Nat.le_refl _
      · exact hhead r hr
    · rw [if_neg hm] at h
      intro r hr hmr
      rcases List.mem_cons.mp hr with rfl | hr
      · exact absurd hmr (by simpa [matchesRef] using hm)
      · exact findRefMatch_max htail h r hr hmr

/-- Combined description of the resolution loop run on the sorted reference
list: when some reference matches, the loop returns a matching reference of
maximal short-name length together with the stripped-and-trimmed
sub directory. -/
theorem resolveRef_sorted_spec {path : String} {refs : List String}
    (hex : ∃ r ∈ refs, matchesRef path r = true) :
    ∃ w sub, findRefMatch path (byShortNameLengthDesc refs) = some (w, sub) ∧
      w ∈ refs ∧ matchesRef path w = true ∧
      sub = goTrimSuf (goTrimPre path (goTrimPre w "origin/" ++ "/")) "/" ∧
      ∀ r ∈ refs, matchesRef path r = true → r.utf8ByteSize ≤ w.utf8ByteSize := by
  obtain ⟨r, hr, hm⟩ := hex
  have hmem : r ∈ byShortNameLengthDesc refs := by
    unfold byShortNameLengthDesc
    exact (List.mem_insertionSort refLenGE).mpr hr
  obtain ⟨⟨w, sub⟩, hfind⟩ := findRefMatch_exists ⟨r, hmem, hm⟩
  obtain ⟨hw, hmw, hsub⟩ := findRefMatch_some hfind
  have hsorted : (byShortNameLengthDesc refs).Pairwise refLenGE :=
    List.sorted_insertionSort refLenGE refs
  refine ⟨w, sub, hfind, (List.mem_insertionSort refLenGE).mp hw, hmw, hsub, ?_⟩
  intro r' hr' hm'
  exact findRefMatch_max hsorted hfind r'
    ((List.mem_insertionSort refLenGE).mpr hr') hm'

/-- Reduction of `ParseGitCheckoutOptionsSubDirectory` on a URL whose path
splits as `owner / repo / tree / refSeg / subSegs`, with no dot segments. -/
theorem parse_tree_reduce {uPath o rp refSeg : String} {subSegs : List String} (repo : Repository)
    (h1 : goSplit (goTrimSuf uPath "/") '/' = "" :: o :: rp :: "tree" :: refSeg :: subSegs)
    (h2 : ∀ s ∈ refSeg :: subSegs, isDotSeg s = false) :
    ParseGitCheckoutOptionsSubDirectory uPath repo =
      if gitSHAMatch refSeg then .ok (hashOpts (newHash refSeg), goJoin "/" subSegs)
      else
        match findRefMatch (goJoin "/" (refSeg :: subSegs) ++ "/") (byShortNameLengthDesc repo.refs) with
        | some (ref, subDir) => .ok (branchOpts ref, subDir)
        | none => .error "invalid Git URL" := by
  have hany : ("tree" :: refSeg :: subSegs).any isDotSeg = false := by
    rw [List.any_cons]
    have h3 : (refSeg :: subSegs).any isDotSeg = false :=
      List.any_eq_false.mpr fun s hs => by rw [h2 s hs]; simp
    rw [h3]
    decide
  have hne3 : ¬ (("" :: o :: rp :: "tree" :: refSeg :: subSegs).length < 3) := by
    simp only [List.length_cons]
    omega
  have hne3' : ¬ (("" :: o :: rp :: "tree" :: refSeg :: subSegs).length = 3) := by
    simp only [List.length_cons]
    omega
  unfold ParseGitCheckoutOptionsSubDirectory
  rw [h1, if_neg hne3, if_neg hne3']
  simp only [List.drop_succ_cons, List.drop_zero, hany, Bool.false_eq_true, if_false,
    if_pos rfl, if_true, listGitReferencesByShortNameLength]

/-! ## Claim theorems -/

theorem gitSHAMatch_not_dot {s : String} (h : gitSHAMatch s = true) : isDotSeg s = false := by
  have hlen : s.data.length = 40 := by
    have := (Bool.and_eq_true _ _).mp h
    simpa using this.1
  have hs1 : s ≠ "." := fun he => absurd (he ▸ hlen) (by decide)
  have hs2 : s ≠ ".." := fun he => absurd (he ▸ hlen) (by decide)
  simp [isDotSeg, hs1, hs2]

/-- C2: for every URL whose first path segment after `tree` is a 40-character
hexadecimal string, `ParseGitCheckoutOptionsSubDirectory` resolves that
segment as a content hash with the remaining segments joined as the
subdirectory, for every repository reference list (so the reference list is
never consulted, even when a reference shares that literal name). -/
theorem c2_sha_takes_precedence (uPath o rp sha : String) (subSegs : List String)
    (repo : Repository)
    (h1 : goSplit (goTrimSuf uPath "/") '/' = "" :: o :: rp :: "tree" :: sha :: subSegs)
    (h2 : ∀ s ∈ subSegs, isDotSeg s = false)
    (h3 : gitSHAMatch sha = true) :
    ParseGitCheckoutOptionsSubDirectory uPath repo =
      .ok (hashOpts (newHash sha), goJoin "/" subSegs) := by
  have h2' : ∀ s ∈ sha :: subSegs, isDotSeg s = false := by
    intro s hs
    rcases List.mem_cons.mp hs with rfl | hs
    · exact gitSHAMatch_not_dot h3
    · exact h2 s hs
  rw [parse_tree_reduce repo h1 h2', if_pos h3]

/-- Witness for C2: a URL with a commit SHA after `tree`, against a repository
that also has a reference literally named like that SHA. -/
theorem c2_sha_takes_precedence_witness :
    ParseGitCheckoutOptionsSubDirectory
      "/fakeowner/fakerepo/tree/2ba6921f3163493809bcbb0ec7283a0446048076/content/foo"
      ⟨["2ba6921f3163493809bcbb0ec7283a0446048076", "master"], "", ""⟩ =
      .ok (hashOpts (newHash "2ba6921f3163493809bcbb0ec7283a0446048076"),
        goJoin "/" ["content", "foo"]) :=
  c2_sha_takes_precedence
    "/fakeowner/fakerepo/tree/2ba6921f3163493809bcbb0ec7283a0446048076/content/foo"
    "fakeowner" "fakerepo" "2ba6921f3163493809bcbb0ec7283a0446048076" ["content", "foo"]
    ⟨["2ba6921f3163493809bcbb0ec7283a0446048076", "master"], "", ""⟩
    (by decide) (by decide) (by decide)

/-- C3: every URL with a literal `.` or `..` path segment anywhere after the
owner/repo identifier is rejected with an error. -/
theorem c3_dot_segments_rejected (uPath o rp : String) (rest : List String) (repo : Repository)
    (h1 : goSplit (goTrimSuf uPath "/") '/' = "" :: o :: rp :: rest)
    (h2 : ∃ s ∈ rest, isDotSeg s = true) :
    ParseGitCheckoutOptionsSubDirectory uPath repo = .error "invalid Git URL" := by
  obtain ⟨s, hs, hdot⟩ := h2
  obtain ⟨p0, prest, rfl⟩ : ∃ p0 prest, rest = p0 :: prest := by
    cases rest with
    | nil => simp at hs
    | cons p0 prest => exact ⟨p0, prest, rfl⟩
  have hne3 : ¬ (("" :: o :: rp :: p0 :: prest).length < 3) := by
    simp only [List.length_cons]
    omega
  have hne3' : ¬ (("" :: o :: rp :: p0 :: prest).length = 3) := by
    simp only [List.length_cons]
    omega
  have hany : (p0 :: prest).any isDotSeg = true := List.any_eq_true.mpr ⟨s, hs, hdot⟩
  unfold ParseGitCheckoutOptionsSubDirectory
  rw [h1, if_neg hne3, if_neg hne3']
  simp only [List.drop_succ_cons, List.drop_zero, hany, if_true]

/-- Witness for C3: a `..` segment after the repo identifier. -/
theorem c3_dot_segments_rejected_witness :
    ParseGitCheckoutOptionsSubDirectory "/fakeowner/fakerepo/content/../foo" ⟨[], "", ""⟩ =
      .error "invalid Git URL" :=
  c3_dot_segments_rejected "/fakeowner/fakerepo/content/../foo"
    "fakeowner" "fakerepo" ["content", "..", "foo"] ⟨[], "", ""⟩
    (by decide) ⟨"..", by decide, by decide⟩

/-- C5: for every URL with owner and repo but no `tree` segment after them,
the resolver returns the default branch (`refs/heads/master`) with the
remaining segments joined as the subdirectory; with no remaining segments the
subdirectory is empty (`goJoin "/" [] = ""`). -/
theorem c5_no_tree_default_branch (uPath o rp : String) (rest : List String) (repo : Repository)
    (h1 : goSplit (goTrimSuf uPath "/") '/' = "" :: o :: rp :: rest)
    (h2 : ∀ s ∈ rest, isDotSeg s = false)
    (h3 : "tree" ∉ rest) :
    ParseGitCheckoutOptionsSubDirectory uPath repo =
      .ok (branchOpts masterRef, goJoin "/" rest) := by
  cases rest with
  | nil =>
    unfold ParseGitCheckoutOptionsSubDirectory
    rw [h1]
    norm_num
    rfl
  | cons p0 prest =>
    have hp0 : ¬ (p0 = "tree") := fun he => h3 (he ▸ List.mem_cons_self p0 prest)
    have hne3 : ¬ (("" :: o :: rp :: p0 :: prest).length < 3) := by
      simp only [List.length_cons]
      omega
    have hne3' : ¬ (("" :: o :: rp :: p0 :: prest).length = 3) := by
      simp only [List.length_cons]
      omega
    have hany : (p0 :: prest).any isDotSeg = false :=
      List.any_eq_false.mpr fun s hs => by rw [h2 s hs]; simp
    unfold ParseGitCheckoutOptionsSubDirectory
    rw [h1, if_neg hne3, if_neg hne3']
    simp only [List.drop_succ_cons, List.drop_zero, hany, Bool.false_eq_true, if_false,
      if_neg hp0]

/-- Witness for C5: a URL with two plain path segments and no `tree`. -/
theorem c5_no_tree_default_branch_witness :
    ParseGitCheckoutOptionsSubDirectory "/fakeowner/fakerepo/content/foo/" ⟨["my"], "", ""⟩ =
      .ok (branchOpts masterRef, goJoin "/" ["content", "foo"]) :=
  c5_no_tree_default_branch "/fakeowner/fakerepo/content/foo/"
    "fakeowner" "fakerepo" ["content", "foo"] ⟨["my"], "", ""⟩
    (by decide) (by decide) (by decide)

theorem append_dotgit_ne_empty (r : String) : r ++ ".git" ≠ "" := by
  intro h
  have hd := congrArg String.data h
  rw [String.data_append] at hd
  have : (".git" : String).data = [] := (List.append_eq_nil.mp hd).2
  exact absurd this (by decide)

theorem goEndsWith_append_dotgit (r : String) : goEndsWith (r ++ ".git") ".git" = true := by
  rw [goEndsWith_iff, String.data_append]
  exact List.suffix_append r.data _

/-- C4: `ParseGitRepoURL` maps the URL forms `https://host/owner/repo`,
`.../repo.git`, `.../repo/` and any form with extra path segments to the same
canonical clone URL `https://host/owner/repo.git`; extra path and trailing
slashes are dropped and `.git` is appended exactly when absent.  The four path
forms are characterized by how they split on `/`. -/
theorem parseRepoURL_ok {host owner repoSeg p : String} {tail : List String}
    (ho : owner ≠ "") (hr : repoSeg ≠ "")
    (hp : goSplit p '/' = "" :: owner :: repoSeg :: tail) :
    ParseGitRepoURL "https" host p =
      .ok ("https" ++ "://" ++ host ++ "/" ++ owner ++ "/" ++
        (if goEndsWith repoSeg ".git" then repoSeg else repoSeg ++ ".git")) := by
  unfold ParseGitRepoURL
  rw [if_neg (by simp), hp]
  simp only [if_neg ho, if_neg hr]

/-- C4: `ParseGitRepoURL` maps the URL forms `https://host/owner/repo`,
`.../repo.git`, `.../repo/` and any form with extra path segments to the same
canonical clone URL `https://host/owner/repo.git`; extra path and trailing
slashes are dropped and `.git` is appended exactly when absent.  The four path
forms are characterized by how they split on `/`. -/
theorem c4_repo_url_normalizes (host owner repoName p1 p2 p3 p4 : String) (rest : List String)
    (ho : owner ≠ "") (hr : repoName ≠ "") (hg : goEndsWith repoName ".git" = false)
    (h1 : goSplit p1 '/' = ["", owner, repoName])
    (h2 : goSplit p2 '/' = ["", owner, repoName ++ ".git"])
    (h3 : goSplit p3 '/' = ["", owner, repoName, ""])
    (h4 : goSplit p4 '/' = "" :: owner :: repoName :: rest) :
    ParseGitRepoURL "https" host p1 =
        .ok ("https://" ++ host ++ "/" ++ owner ++ "/" ++ repoName ++ ".git") ∧
    ParseGitRepoURL "https" host p2 =
        .ok ("https://" ++ host ++ "/" ++ owner ++ "/" ++ repoName ++ ".git") ∧
    ParseGitRepoURL "https" host p3 =
        .ok ("https://" ++ host ++ "/" ++ owner ++ "/" ++ repoName ++ ".git") ∧
    ParseGitRepoURL "https" host p4 =
        .ok ("https://" ++ host ++ "/" ++ owner ++ "/" ++ repoName ++ ".git") := by
  have habs : ("https" ++ "://" : String) = "https://" := rfl
  refine ⟨?_, ?_, ?_, ?_⟩
  · rw [parseRepoURL_ok ho hr h1, hg]
    simp only [Bool.false_eq_true, if_false]
    rw [habs, ← String.append_assoc]
  · rw [parseRepoURL_ok ho (append_dotgit_ne_empty repoName) h2, goEndsWith_append_dotgit]
    simp only [if_true]
    rw [habs, ← String.append_assoc]
  · rw [parseRepoURL_ok ho hr h3, hg]
    simp only [Bool.false_eq_true, if_false]
    rw [habs, ← String.append_assoc]
  · rw [parseRepoURL_ok ho hr h4, hg]
    simp only [Bool.false_eq_true, if_false]
    rw [habs, ← String.append_assoc]

/-- Witness for C4: the four URL forms of the repository's own documentation
example, `https://github.com/pulumi/templates…`. -/
theorem c4_repo_url_normalizes_witness :
    ParseGitRepoURL "https" "github.com" "/pulumi/templates" =
        .ok ("https://" ++ "github.com" ++ "/" ++ "pulumi" ++ "/" ++ "templates" ++ ".git") ∧
    ParseGitRepoURL "https" "github.com" "/pulumi/templates.git" =
        .ok ("https://" ++ "github.com" ++ "/" ++ "pulumi" ++ "/" ++ "templates" ++ ".git") ∧
    ParseGitRepoURL "https" "github.com" "/pulumi/templates/" =
        .ok ("https://" ++ "github.com" ++ "/" ++ "pulumi" ++ "/" ++ "templates" ++ ".git") ∧
    ParseGitRepoURL "https" "github.com" "/pulumi/templates/tree/master/templates/typescript" =
        .ok ("https://" ++ "github.com" ++ "/" ++ "pulumi" ++ "/" ++ "templates" ++ ".git") :=
  c4_repo_url_normalizes "github.com" "pulumi" "templates"
    "/pulumi/templates" "/pulumi/templates.git" "/pulumi/templates/"
    "/pulumi/templates/tree/master/templates/typescript"
    ["tree", "master", "templates", "typescript"]
    (by decide) (by decide) (by decide) (by decide) (by decide) (by decide) (by decide)

/-- C6: `GitCloneOrPull` first attempts a shallow (depth-1) clone; exactly
when the clone fails with `ErrRepositoryAlreadyExists` it opens the existing
repository and performs a forced shallow (depth-1) pull, where an
"already up to date" pull result is success; every other clone, open,
worktree or pull failure is returned unchanged. -/
theorem c6_clone_or_pull_recovery {Repo Worktree : Type}
    (url clonePath : String)
    (plainClone : String → CloneOptions → Except GitError Repo)
    (plainOpen : String → Except GitError Repo)
    (worktree : Repo → Except GitError Worktree)
    (pull : Worktree → PullOptions → Option GitError) :
    (∀ repo, plainClone clonePath { url := url, depth := 1 } = .ok repo →
      GitCloneOrPull url clonePath plainClone plainOpen worktree pull = .ok repo) ∧
    (∀ e, plainClone clonePath { url := url, depth := 1 } = .error e →
      e ≠ .errRepositoryAlreadyExists →
      GitCloneOrPull url clonePath plainClone plainOpen worktree pull = .error e) ∧
    (plainClone clonePath { url := url, depth := 1 } = .error .errRepositoryAlreadyExists →
      (∀ e2, plainOpen clonePath = .error e2 →
        GitCloneOrPull url clonePath plainClone plainOpen worktree pull = .error e2) ∧
      (∀ repo, plainOpen clonePath = .ok repo →
        (∀ e3, worktree repo = .error e3 →
          GitCloneOrPull url clonePath plainClone plainOpen worktree pull = .error e3) ∧
        (∀ w, worktree repo = .ok w →
          (pull w { depth := 1, force := true } = none →
            GitCloneOrPull url clonePath plainClone plainOpen worktree pull = .ok repo) ∧
          (pull w { depth := 1, force := true } = some .noErrAlreadyUpToDate →
            GitCloneOrPull url clonePath plainClone plainOpen worktree pull = .ok repo) ∧
          (∀ pe, pull w { depth := 1, force := true } = some pe →
            pe ≠ .noErrAlreadyUpToDate →
            GitCloneOrPull url clonePath plainClone plainOpen worktree pull = .error pe)))) := by
  refine ⟨?_, ?_, ?_⟩
  · intro repo hc
    simp [GitCloneOrPull, hc]
  · intro e hc hne
    simp [GitCloneOrPull, hc, hne]
  · intro hc
    refine ⟨?_, ?_⟩
    · intro e2 ho
      simp [GitCloneOrPull, hc, ho]
    · intro repo ho
      refine ⟨?_, ?_⟩
      · intro e3 hw
        simp [GitCloneOrPull, hc, ho, hw]
      · intro w hw
        refine ⟨?_, ?_, ?_⟩
        · intro hpull
          simp [GitCloneOrPull, hc, ho, hw, hpull]
        · intro hpull
          simp [GitCloneOrPull, hc, ho, hw, hpull]
        · intro pe hpull hne
          simp [GitCloneOrPull, hc, ho, hw, hpull, hne]

/-- Witness for C6: a clone that fails with "repository already exists",
followed by an open and a pull reporting "already up to date", succeeds with
the opened repository. -/
theorem c6_clone_or_pull_recovery_witness :
    @GitCloneOrPull Nat Nat "https://github.com/pulumi/templates.git"
      "/home/user/.pulumi/templates"
      (fun _ _ => .error .errRepositoryAlreadyExists) (fun _ => .ok 7) (fun r => .ok r)
      (fun _ _ => some .noErrAlreadyUpToDate) = .ok 7 := by
  have h := (c6_clone_or_pull_recovery "https://github.com/pulumi/templates.git"
    "/home/user/.pulumi/templates"
    (fun _ _ => .error .errRepositoryAlreadyExists) (fun _ => .ok 7)
    (fun r : Nat => (.ok r : Except GitError Nat))
    (fun (_ : Nat) _ => some .noErrAlreadyUpToDate)).2.2 rfl
  exact (((h.2 7 rfl).2 7 rfl)).2.1 rfl

/-- C8: `MergeTags` overwrites exactly the keys present in the incoming tag
map with their incoming values and leaves the value of every other key
unchanged. -/
theorem c8_merge_tags_frame (old : String → Option String)
    (incoming : List (String × String)) (k : String)
    (hnodup : (incoming.map Prod.fst).Nodup) :
    (∀ v, (k, v) ∈ incoming → MergeTags old incoming k = some v) ∧
    (k ∉ incoming.map Prod.fst → MergeTags old incoming k = old k) := by
  induction incoming generalizing old with
  | nil => exact ⟨fun v hv => by simp at hv, fun _ => rfl⟩
  | cons kv rest ih =>
    have hstep : MergeTags old (kv :: rest) =
        MergeTags (fun k0 => if k0 = kv.1 then some kv.2 else old k0) rest := rfl
    have hnodup2 : (kv.1 :: rest.map Prod.fst).Nodup := by simpa using hnodup
    have hk1 : kv.1 ∉ rest.map Prod.fst := (List.nodup_cons.mp hnodup2).1
    have hnodup' : (rest.map Prod.fst).Nodup := (List.nodup_cons.mp hnodup2).2
    constructor
    · intro v hv
      rcases List.mem_cons.mp hv with heq | hv
      · have hkv1 : kv.1 = k := by rw [← heq]
        have hkv2 : kv.2 = v := by rw [← heq]
        have hnotin : k ∉ rest.map Prod.fst := hkv1 ▸ hk1
        rw [hstep, (ih _ hnodup').2 hnotin, hkv1, hkv2, if_pos rfl]
      · rw [hstep, (ih _ hnodup').1 v hv]
    · intro hnotin
      have hne : ¬ (k = kv.1) := fun he => hnotin (he ▸ List.mem_map_of_mem Prod.fst
        (List.mem_cons_self kv rest))
      have hnotin' : k ∉ rest.map Prod.fst := fun hmem =>
        hnotin (List.mem_cons_of_mem _ hmem)
      rw [hstep, (ih _ hnodup').2 hnotin', if_neg hne]

/-- Witness for C8: merging `{stack: prod, team: infra}` with incoming
`{team: platform, env: ci}` overwrites `team`, adds `env`, keeps `stack`. -/
theorem c8_merge_tags_frame_witness :
    MergeTags (fun k => if k = "stack" then some "prod" else if k = "team" then some "infra"
        else none)
      [("team", "platform"), ("env", "ci")] "team" = some "platform" ∧
    MergeTags (fun k => if k = "stack" then some "prod" else if k = "team" then some "infra"
        else none)
      [("team", "platform"), ("env", "ci")] "stack" = some "prod" := by
  constructor
  · exact (c8_merge_tags_frame _ [("team", "platform"), ("env", "ci")] "team"
      (by decide)).1 "platform" (by simp)
  · have h := (c8_merge_tags_frame
      (fun k => if k = "stack" then some "prod" else if k = "team" then some "infra" else none)
      [("team", "platform"), ("env", "ci")] "stack" (by decide)).2 (by simp)
    rw [h]
    rfl

/-- C9: the resolver is pure given a reference list: its result depends on the
raw URL and the repository's reference list only — two repositories agreeing
on their references (but differing in any other repository state) resolve
every URL identically.  In the model the reference enumeration is the
caller-supplied `Repository.refs`; the function performs no I/O. -/
theorem c9_resolver_pure (uPath : String) (repo1 repo2 : Repository)
    (h : repo1.refs = repo2.refs) :
    ParseGitCheckoutOptionsSubDirectory uPath repo1 =
      ParseGitCheckoutOptionsSubDirectory uPath repo2 := by
  unfold ParseGitCheckoutOptionsSubDirectory listGitReferencesByShortNameLength
  rw [h]

/-- Witness for C9: two repositories with the same references but different
head and worktree state resolve the same URL identically. -/
theorem c9_resolver_pure_witness :
    ParseGitCheckoutOptionsSubDirectory "/o/r/tree/main/sub"
        ⟨["main", "my"], "refs/heads/main", "/tmp/a"⟩ =
      ParseGitCheckoutOptionsSubDirectory "/o/r/tree/main/sub"
        ⟨["main", "my"], "HEAD", "/var/b"⟩ :=
  c9_resolver_pure "/o/r/tree/main/sub" ⟨["main", "my"], "refs/heads/main", "/tmp/a"⟩
    ⟨["main", "my"], "HEAD", "/var/b"⟩ rfl

/-- Counterexample to C7 as stated: the URL `…/tree/<forty zeros>` passes the
SHA pattern, and `plumbing.NewHash` maps the all-zeros hex string to the zero
hash, so the successfully returned checkout target has an unset branch AND an
unset hash — "never neither" fails. -/
theorem c7_counterexample :
    ParseGitCheckoutOptionsSubDirectory
        "/fakeowner/fakerepo/tree/0000000000000000000000000000000000000000" ⟨[], "", ""⟩ =
      .ok (⟨"", zeroHash⟩, "") ∧
    branchIsSet ⟨"", zeroHash⟩ = false ∧ hashIsSet ⟨"", zeroHash⟩ = false := by
  decide

/-- C7 amended: every checkout target successfully returned by
`ParseGitCheckoutOptionsSubDirectory` has exactly one of branch-or-tag name and
content hash set — unless the returned target is the all-zero value (empty
branch and zero hash), which the function does return for the all-zeros
40-hex URL segment (and for an empty matched reference short name). -/
theorem c7_exactly_one_of_branch_hash (uPath : String) (repo : Repository)
    (opts : CheckoutOptions) (sub : String)
    (h : ParseGitCheckoutOptionsSubDirectory uPath repo = .ok (opts, sub)) :
    branchIsSet opts ≠ hashIsSet opts ∨ opts = ⟨"", zeroHash⟩ := by
  have hcases : (∃ r, opts = branchOpts r) ∨ (∃ s, opts = hashOpts s) := by
    unfold ParseGitCheckoutOptionsSubDirectory at h
    dsimp only at h
    repeat' split at h
    all_goals
      first
        | exact Except.noConfusion h
        | (simp only [Except.ok.injEq, Prod.mk.injEq] at h
           exact Or.inl ⟨_, h.1.symm⟩)
        | (simp only [Except.ok.injEq, Prod.mk.injEq] at h
           exact Or.inr ⟨_, h.1.symm⟩)
  rcases hcases with ⟨r, rfl⟩ | ⟨s, rfl⟩
  · by_cases hr : r = ""
    · exact Or.inr (by rw [hr]; rfl)
    · refine Or.inl ?_
      have h1 : branchIsSet (branchOpts r) = true := by
        simp [branchIsSet, branchOpts, hr]
      have h2 : hashIsSet (branchOpts r) = false := by
        simp [hashIsSet, branchOpts]
      rw [h1, h2]
      simp
  · by_cases hs : s = zeroHash
    · exact Or.inr (by rw [hs]; rfl)
    · refine Or.inl ?_
      have h1 : branchIsSet (hashOpts s) = false := by
        simp [branchIsSet, hashOpts]
      have h2 : hashIsSet (hashOpts s) = true := by
        simp [hashIsSet, hashOpts, hs]
      rw [h1, h2]
      simp

/-- Witness for the amended C7: the plain owner/repo URL yields the default
branch target, which has exactly one side set. -/
theorem c7_exactly_one_of_branch_hash_witness :
    branchIsSet (branchOpts masterRef) ≠ hashIsSet (branchOpts masterRef) ∨
      branchOpts masterRef = ⟨"", zeroHash⟩ :=
  c7_exactly_one_of_branch_hash "/fakeowner/fakerepo" ⟨[], "", ""⟩
    (branchOpts masterRef) "" (by decide)

/-- Counterexample to C1 as stated, in both of its parts.
(1) The "in particular" sentence quantifies over EVERY reference list
containing `"my"` and `"my/content"`: the list
`["my", "my/content", "my/content/foo"]` contains both, yet ref-path
`"my/content/foo"` resolves to ref `"my/content/foo"` with empty
subdirectory, not to `"my/content"` with `"foo"`.
(2) The stated matching predicate compares the short name itself, but the
code strips a leading `"origin/"` first: for the reference list
`["origin/foo"]` and ref-path `"foo/bar"`, the winning reference's short name
`"origin/foo"` followed by `"/"` does NOT prefix the ref-path followed by
`"/"`, yet it wins. -/
theorem c1_counterexample :
    (ParseGitCheckoutOptionsSubDirectory "/fakeowner/fakerepo/tree/my/content/foo"
        ⟨["my", "my/content", "my/content/foo"], "", ""⟩ =
          .ok (branchOpts "my/content/foo", "") ∧
      (.ok (branchOpts "my/content/foo", "") :
          Except String (CheckoutOptions × String)) ≠
        .ok (branchOpts "my/content", "foo")) ∧
    (ParseGitCheckoutOptionsSubDirectory "/fakeowner/fakerepo/tree/foo/bar"
        ⟨["origin/foo"], "", ""⟩ = .ok (branchOpts "origin/foo", "bar") ∧
      goStartsWith ("foo/bar" ++ "/") ("origin/foo" ++ "/") = false) := by
  decide

/-- C1 amended: for a `tree` URL whose first ref segment is not a 40-hex hash,
the resolver tests every known reference in order of descending short-name
length, comparing each reference's short name with a leading `"origin/"`
stripped; the first match wins, so the winner is a matching reference of
maximal short-name length.  In particular, for any reference list containing
`"my"` and `"my/content"` whose matches of ref-path `"my/content/foo"` are
only those two references, the ref-path resolves to ref `"my/content"` with
subdirectory `"foo"`. -/
theorem c1_longest_match_wins :
    (∀ (uPath o rp refSeg : String) (subSegs : List String) (repo : Repository),
      goSplit (goTrimSuf uPath "/") '/' = "" :: o :: rp :: "tree" :: refSeg :: subSegs →
      (∀ s ∈ refSeg :: subSegs, isDotSeg s = false) →
      gitSHAMatch refSeg = false →
      (∃ r ∈ repo.refs, matchesRef (goJoin "/" (refSeg :: subSegs) ++ "/") r = true) →
      ∃ winner,
        ParseGitCheckoutOptionsSubDirectory uPath repo =
          .ok (branchOpts winner,
            goTrimSuf (goTrimPre (goJoin "/" (refSeg :: subSegs) ++ "/")
              (goTrimPre winner "origin/" ++ "/")) "/") ∧
        winner ∈ repo.refs ∧
        matchesRef (goJoin "/" (refSeg :: subSegs) ++ "/") winner = true ∧
        ∀ r ∈ repo.refs, matchesRef (goJoin "/" (refSeg :: subSegs) ++ "/") r = true →
          r.utf8ByteSize ≤ winner.utf8ByteSize) ∧
    (∀ repo : Repository, "my" ∈ repo.refs → "my/content" ∈ repo.refs →
      (∀ r ∈ repo.refs, matchesRef "my/content/foo/" r = true →
        r = "my" ∨ r = "my/content") →
      ParseGitCheckoutOptionsSubDirectory "/fakeowner/fakerepo/tree/my/content/foo" repo =
        .ok (branchOpts "my/content", "foo")) := by
  constructor
  · intro uPath o rp refSeg subSegs repo h1 h2 h3 hex
    obtain ⟨w, sub, hfind, hw, hmw, hsub, hmax⟩ := resolveRef_sorted_spec hex
    refine ⟨w, ?_, hw, hmw, hmax⟩
    rw [parse_tree_reduce repo h1 h2, if_neg (by rw [h3]; simp), hfind, hsub]
  · intro repo h1 h2 honly
    have hsplit : goSplit (goTrimSuf "/fakeowner/fakerepo/tree/my/content/foo" "/") '/' =
        "" :: "fakeowner" :: "fakerepo" :: "tree" :: "my" :: ["content", "foo"] := by decide
    have hex : ∃ r ∈ repo.refs,
        matchesRef (goJoin "/" ("my" :: ["content", "foo"]) ++ "/") r = true :=
      ⟨"my/content", h2, by decide⟩
    obtain ⟨w, sub, hfind, hw, hmw, hsub, hmax⟩ := resolveRef_sorted_spec hex
    have hwc : w = "my" ∨ w = "my/content" := honly w hw (by
      have : (goJoin "/" ("my" :: ["content", "foo"]) ++ "/") = "my/content/foo/" := by decide
      rw [← this]
      exact hmw)
    have hlen : ("my/content" : String).utf8ByteSize ≤ w.utf8ByteSize :=
      hmax _ h2 (by decide)
    have hw2 : w = "my/content" := by
      rcases hwc with rfl | rfl
      · exact absurd hlen (by decide)
      · rfl
    subst hw2
    rw [parse_tree_reduce repo hsplit (by decide), if_neg (by decide), hfind, hsub]
    decide

/-- Witness for the amended C1: the repository test's reference list
(`master`, `HEAD`, tag `my`, branch `my/content`) with ref-path
`my/content/foo`. -/
theorem c1_longest_match_wins_witness :
    ParseGitCheckoutOptionsSubDirectory "/fakeowner/fakerepo/tree/my/content/foo"
      ⟨["master", "HEAD", "my", "my/content"], "", ""⟩ =
      .ok (branchOpts "my/content", "foo") :=
  c1_longest_match_wins.2 ⟨["master", "HEAD", "my", "my/content"], "", ""⟩
    (by decide) (by decide) (by decide)

theorem goStartsWith_refl (s : String) : goStartsWith s s = true := by
  rw [goStartsWith_iff]

/-- Counterexample to C10 as stated: the repository
`["origin/a", "origin/a/b"]` contains a remote-tracking reference with short
name `"origin/a"` (X = `"a"`), and the URL `…/tree/a/b/c` has the form
`…/tree/X/sub` with sub = `"b/c"` — but it resolves to the longer reference
`"origin/a/b"` with subdirectory `"c"`, not to `"origin/a"` with `"b/c"`. -/
theorem c10_counterexample :
    ParseGitCheckoutOptionsSubDirectory "/fakeowner/fakerepo/tree/a/b/c"
        ⟨["origin/a", "origin/a/b"], "", ""⟩ =
      .ok (branchOpts "origin/a/b", "c") ∧
    (.ok (branchOpts "origin/a/b", "c") : Except String (CheckoutOptions × String)) ≠
      .ok (branchOpts "origin/a", "b/c") := by
  decide

/-- C10 amended: the resolver strips a leading `"origin/"` from each
reference's short name before comparing, so for every repository containing a
remote-tracking reference with short name `"origin/" ++ X`, a URL
`…/tree/X/sub` (first segment not a 40-hex hash, no dot segments) resolves to
that reference with subdirectory `sub` — provided every other matching
reference has a strictly shorter short name (otherwise the longer match wins,
see the counterexample).  No reference literally named `X` is required. -/
theorem c10_origin_stripped (uPath o rp X : String) (xsegs subSegs : List String)
    (repo : Repository)
    (hx : xsegs ≠ [])
    (hX : X = goJoin "/" xsegs)
    (h1 : goSplit (goTrimSuf uPath "/") '/' = "" :: o :: rp :: "tree" :: (xsegs ++ subSegs))
    (h2 : ∀ s ∈ xsegs ++ subSegs, isDotSeg s = false)
    (h3 : ∀ s0 t, xsegs = s0 :: t → gitSHAMatch s0 = false)
    (hmem : "origin/" ++ X ∈ repo.refs)
    (hmax : ∀ r ∈ repo.refs, matchesRef (goJoin "/" (xsegs ++ subSegs) ++ "/") r = true →
      r ≠ "origin/" ++ X → r.utf8ByteSize < ("origin/" ++ X).utf8ByteSize) :
    ParseGitCheckoutOptionsSubDirectory uPath repo =
      .ok (branchOpts ("origin/" ++ X), goJoin "/" subSegs) := by
  obtain ⟨x0, xrest, rfl⟩ : ∃ x0 xrest, xsegs = x0 :: xrest := by
    cases xsegs with
    | nil => exact absurd rfl hx
    | cons x0 xrest => exact ⟨x0, xrest, rfl⟩
  have hstrip : goTrimPre ("origin/" ++ X) "origin/" = X := goTrimPre_append "origin/" X
  have hpath : goJoin "/" ((x0 :: xrest) ++ subSegs) ++ "/" =
      (X ++ "/") ++ (goJoin "/" subSegs ++ "/") ∨
      (subSegs = [] ∧ goJoin "/" ((x0 :: xrest) ++ subSegs) ++ "/" = X ++ "/") := by
    cases subSegs with
    | nil =>
      refine Or.inr ⟨rfl, ?_⟩
      rw [List.append_nil, hX]
    | cons s0 srest =>
      refine Or.inl ?_
      rw [goJoin_append (x0 :: xrest) (s0 :: srest) (by simp) (by simp), ← hX]
      simp [String.append_assoc]
  have hm : matchesRef (goJoin "/" ((x0 :: xrest) ++ subSegs) ++ "/") ("origin/" ++ X) =
      true := by
    unfold matchesRef
    rw [hstrip]
    rcases hpath with hp | ⟨-, hp⟩
    · rw [hp]
      exact goStartsWith_append (X ++ "/") _
    · rw [hp]
      exact goStartsWith_refl (X ++ "/")
  have hsubval :
      goTrimSuf (goTrimPre (goJoin "/" ((x0 :: xrest) ++ subSegs) ++ "/") (X ++ "/")) "/" =
        goJoin "/" subSegs := by
    rcases hpath with hp | ⟨hnil, hp⟩
    · rw [hp, goTrimPre_append (X ++ "/") _, goTrimSuf_append]
    · rw [hp, goTrimPre_self, hnil]
      rfl
  have hex : ∃ r ∈ repo.refs,
      matchesRef (goJoin "/" ((x0 :: xrest) ++ subSegs) ++ "/") r = true :=
    ⟨"origin/" ++ X, hmem, hm⟩
  obtain ⟨w, sub, hfind, hw, hmw, hsub, hmaxw⟩ := resolveRef_sorted_spec hex
  have hweq : w = "origin/" ++ X := by
    by_contra hne
    have hlt := hmax w hw hmw hne
    have hle := hmaxw ("origin/" ++ X) hmem hm
    omega
  subst hweq
  have h1' : goSplit (goTrimSuf uPath "/") '/' =
      "" :: o :: rp :: "tree" :: x0 :: (xrest ++ subSegs) := by
    simpa using h1
  have h2' : ∀ s ∈ x0 :: (xrest ++ subSegs), isDotSeg s = false := by
    intro s hs
    exact h2 s (by simpa using hs)
  rw [parse_tree_reduce repo h1' h2']
  simp only [← List.cons_append]
  rw [if_neg (by rw [h3 x0 xrest rfl]; simp), hfind, hsub, hstrip, hsubval]

/-- Witness for the amended C10: repository `["origin/X"]`, URL
`…/tree/X/sub`, no reference literally named `X`. -/
theorem c10_origin_stripped_witness :
    ParseGitCheckoutOptionsSubDirectory "/fakeowner/fakerepo/tree/X/sub"
      ⟨["origin/X"], "", ""⟩ =
      .ok (branchOpts ("origin/" ++ "X"), goJoin "/" ["sub"]) :=
  c10_origin_stripped "/fakeowner/fakerepo/tree/X/sub" "fakeowner" "fakerepo" "X"
    ["X"] ["sub"] ⟨["origin/X"], "", ""⟩ (by decide) (by decide) (by decide) (by decide)
    (fun s0 t h => by cases h; decide) (by decide) (by decide)

section SanityChecks

example : goSplit "/a/b" '/' = ["", "a", "b"] := by decide
example : goSplit "" '/' = [""] := by decide
example : goTrimSuf "/o/r/" "/" = "/o/r" := by decide
example : goJoin "/" ["a", "b", "c"] = "a/b/c" := by decide
example : gitSHAMatch "2ba6921f3163493809bcbb0ec7283a0446048076" = true := by decide
example : gitSHAMatch "master" = false := by decide
example :
    ParseGitCheckoutOptionsSubDirectory "/fakeowner/fakerepo" ⟨[], "", ""⟩ =
      .ok (branchOpts masterRef, "") := by decide
example :
    ParseGitCheckoutOptionsSubDirectory "/fakeowner/fakerepo/content/foo/" ⟨[], "", ""⟩ =
      .ok (branchOpts masterRef, "content/foo") := by decide
example :
    ParseGitCheckoutOptionsSubDirectory "/o/r/tree/my/content/foo"
      ⟨["my", "my/content", "master", "HEAD"], "", ""⟩ =
      .ok (branchOpts "my/content", "foo") := by decide
example :
    ParseGitCheckoutOptionsSubDirectory "/o/r/tree/master/foo" ⟨["master"], "", ""⟩ =
      .ok (branchOpts "master", "foo") := by decide
example :
    ParseGitCheckoutOptionsSubDirectory "/o/r/tree/X/sub" ⟨["origin/X"], "", ""⟩ =
      .ok (branchOpts "origin/X", "sub") := by decide
example :
    ParseGitCheckoutOptionsSubDirectory "/o/r/content/../foo" ⟨[], "", ""⟩ =
      .error "invalid Git URL" := by decide
example :
    ParseGitCheckoutOptionsSubDirectory
      "/o/r/tree/2ba6921f3163493809bcbb0ec7283a0446048076/content/foo"
      ⟨["2ba6921f3163493809bcbb0ec7283a0446048076"], "", ""⟩ =
      .ok (hashOpts "2ba6921f3163493809bcbb0ec7283a0446048076", "content/foo") := by decide
example :
    ParseGitCheckoutOptionsSubDirectory "/o/r/tree" ⟨["master"], "", ""⟩ =
      .error "invalid Git URL" := by decide
example :
    ParseGitRepoURL "https" "github.com" "/pulumi/templates/tree/master/templates" =
      .ok "https://github.com/pulumi/templates.git" := by decide
example :
    ParseGitRepoURL "http" "github.com" "/pulumi/templates" =
      .error "invalid URL scheme" := by decide
example : ParseGitRepoURL "https" "github.com" "/pulumi/" =
    .error "invalid Git URL; no repository" := by decide

end SanityChecks
